import Mathlib

/-!
Shallow embedding of `src/NR_data_reader.py` (class `NRDataReader`).

The file models, directly from the source: block-size detection
(`_get_lines_per_block`), header-time extraction (`_parse_times_from_file`),
the body parse performed by `pd.read_csv(comment=quote, sep=whitespace)`,
the per-level record building and the multi-level sort + dedup merge inside
`_process_variable`, and the `get_variable` accessor.

Modelling conventions: Python floats are rationals (`ℚ`); a file is a
`List String` of its lines; the pandas `DataFrame` of one level is a list of
`Record`s in row order, and the merged result a list of `Entry`s in row
order; operations that can raise return `Except String`.  String scanning
and splitting are implemented by structural recursion over the character
list of a string, with the same semantics as the Python `in`, `str.split`,
`str.strip` operations the source uses.
-/

namespace NRData

instance {ε α : Type} [DecidableEq ε] [DecidableEq α] : DecidableEq (Except ε α)
  | .ok a, .ok b =>
    decidable_of_iff (a = b) ⟨fun h => by rw [h], fun h => by injection h⟩
  | .ok _, .error _ => isFalse (by intro h; injection h)
  | .error _, .ok _ => isFalse (by intro h; injection h)
  | .error e, .error f =>
    decidable_of_iff (e = f) ⟨fun h => by rw [h], fun h => by injection h⟩

/-- The header marker token scanned for by `_get_lines_per_block`. -/
def timeMarker : String := "Time"

/-- The assignment marker used by `_parse_times_from_file`. -/
def eqChar : Char := '='

/-- The comment / quote character of the file format (a double quote),
passed to `pd.read_csv` as `comment` and stripped from header values. -/
def quoteChar : Char := '"'

/-- Substring containment on character lists: Python `pat in line`. -/
def charContains (pat : List Char) : List Char → Bool
  | [] => false
  | c :: rest => pat.isPrefixOf (c :: rest) || charContains pat rest

/-- Split a character list at every occurrence of the character `sep`;
Python `str.split(sep)` for a one-character separator (empty parts kept). -/
def splitOnChar (sep : Char) : List Char → List (List Char)
  | [] => [[]]
  | c :: rest =>
    if c = sep then [] :: splitOnChar sep rest
    else
      match splitOnChar sep rest with
      | [] => [[c]]
      | part :: parts => (c :: part) :: parts

/-- Split a character list at every character satisfying `p` (empty parts
kept); used with `Char.isWhitespace` for the whitespace separator regex. -/
def splitOnPred (p : Char → Bool) : List Char → List (List Char)
  | [] => [[]]
  | c :: rest =>
    if p c then [] :: splitOnPred p rest
    else
      match splitOnPred p rest with
      | [] => [[c]]
      | part :: parts => (c :: part) :: parts

/-- Python `str.strip()`: remove leading and trailing whitespace. -/
def trimChars (cs : List Char) : List Char :=
  ((cs.dropWhile Char.isWhitespace).reverse.dropWhile Char.isWhitespace).reverse

/-- Python `str.strip(c)`: remove every leading and trailing occurrence of
the character `c`. -/
def stripCharList (c : Char) (cs : List Char) : List Char :=
  ((cs.dropWhile (· = c)).reverse.dropWhile (· = c)).reverse

/-- Test `timeMarker in line`, Python substring containment. -/
def containsTime (line : String) : Bool :=
  charContains timeMarker.data line.data

/-- The scanning loop of `_get_lines_per_block`: walk the lines with their
index, append the index of every line containing `timeMarker` to the
accumulator, and stop as soon as two indices have been collected. -/
def headerScan : List String → ℕ → List ℕ → List ℕ
  | [], _, acc => acc
  | line :: rest, i, acc =>
    if containsTime line then
      let acc' := acc ++ [i]
      if acc'.length = 2 then acc' else headerScan rest (i + 1) acc'
    else
      headerScan rest (i + 1) acc

/-- `_get_lines_per_block`: the difference of the first two header-line
indices, or `0` when fewer than two lines contain the marker. -/
def getLinesPerBlock (lines : List String) : ℕ :=
  match headerScan lines 0 [] with
  | i :: j :: _ => j - i
  | _ => 0

/-- Indices (counted from `i`) of the lines containing `timeMarker`; the
specification-side description of what `headerScan` collects. -/
def markerIndicesFrom (i : ℕ) : List String → List ℕ
  | [] => []
  | line :: rest =>
    if containsTime line then i :: markerIndicesFrom (i + 1) rest
    else markerIndicesFrom (i + 1) rest

/-- Numeric value of a decimal digit character. -/
def digitVal (c : Char) : ℕ := c.toNat - 48

/-- Value of a digit string, most significant digit first. -/
def digitsVal (cs : List Char) : ℕ :=
  cs.foldl (fun n c => 10 * n + digitVal c) 0

/-- Parse a non-empty string of decimal digits. -/
def parseDigits? (cs : List Char) : Option ℕ :=
  if cs.isEmpty then none
  else if cs.all Char.isDigit then some (digitsVal cs) else none

/-- Parse an optionally signed exponent (digits required). -/
def parseExponent? (cs : List Char) : Option ℤ :=
  match cs with
  | '+' :: rest => (parseDigits? rest).map fun n => (n : ℤ)
  | '-' :: rest => (parseDigits? rest).map fun n => -(n : ℤ)
  | rest => (parseDigits? rest).map fun n => (n : ℤ)

/-- Parse an unsigned decimal mantissa: digits, optionally with one decimal
point, at least one digit overall (so `5`, `5.`, `.5`, `1.25` parse and
`.`, the empty string or anything non-numeric does not). -/
def parseMantissa? (cs : List Char) : Option ℚ :=
  match splitOnChar '.' cs with
  | [ip] => (parseDigits? ip).map fun n => (n : ℚ)
  | [ip, fp] =>
    if ip.isEmpty && fp.isEmpty then none
    else if ip.all Char.isDigit && fp.all Char.isDigit then
      some ((digitsVal ip : ℚ) + (digitsVal fp : ℚ) / (10 : ℚ) ^ fp.length)
    else none
  | _ => none

/-- Model of the Python builtin `float` (as also used by the pandas numeric
parser), restricted to plain decimal literals: surrounding whitespace is
ignored, an optional sign precedes a decimal mantissa and an optional
`e`/`E` exponent; every other string fails (`none` plays `ValueError`). -/
def parseFloatChars? (cs₀ : List Char) : Option ℚ :=
  let cs := (trimChars cs₀).map fun c => if c = 'E' then 'e' else c
  let signedBody : Bool × List Char :=
    match cs with
    | '+' :: rest => (false, rest)
    | '-' :: rest => (true, rest)
    | rest => (false, rest)
  let withSign : ℚ → ℚ := fun q => if signedBody.1 then -q else q
  match splitOnChar 'e' signedBody.2 with
  | [m] => (parseMantissa? m).map withSign
  | [m, e] =>
    match parseMantissa? m, parseExponent? e with
    | some q, some k => some (withSign (q * (10 : ℚ) ^ k))
    | _, _ => none
  | _ => none

/-- `parseFloatChars?` on a string. -/
def parseFloat? (s : String) : Option ℚ :=
  parseFloatChars? s.data

/-- The header parse of `_parse_times_from_file`:
`line.split(eqChar)[1].strip().strip(quoteChar)` fed to `float`, with
`IndexError` (no second split part) and `ValueError` both giving `none`. -/
def parseHeaderTime? (line : String) : Option ℚ :=
  match (splitOnChar eqChar line.data)[1]? with
  | none => none
  | some cs => parseFloatChars? (stripCharList quoteChar (trimChars cs))

/-- The loop of `_parse_times_from_file`: walk the lines with their index;
on each index divisible by the block size try the header parse, appending
the parsed time and silently skipping failures. -/
def parseTimesAux (blockSize : ℕ) : ℕ → List String → List ℚ
  | _, [] => []
  | i, line :: rest =>
    if i % blockSize = 0 then
      match parseHeaderTime? line with
      | some t => t :: parseTimesAux blockSize (i + 1) rest
      | none => parseTimesAux blockSize (i + 1) rest
    else
      parseTimesAux blockSize (i + 1) rest

/-- `_parse_times_from_file`: empty for block size `0`, otherwise the loop
above started at index `0`. -/
def parseTimesFromFile (lines : List String) (blockSize : ℕ) : List ℚ :=
  if blockSize = 0 then [] else parseTimesAux blockSize 0 lines

/-- The part of a line before its first comment character: with
`comment=quoteChar`, pandas discards the rest of a line from the first
occurrence of the comment character on. -/
def stripComment (cs : List Char) : List Char :=
  match splitOnChar quoteChar cs with
  | [] => cs
  | part :: _ => part

/-- Whitespace-separated fields of the uncommented part of a line
(`sep` is the whitespace regex). -/
def fieldsOf (line : String) : List (List Char) :=
  (splitOnPred Char.isWhitespace (stripComment line.data)).filter fun f => !f.isEmpty

/-- Parse one data row: exactly two numeric fields `(x_coordinate, value)`. -/
def parseRow? (line : String) : Option (ℚ × ℚ) :=
  match (fieldsOf line).map parseFloatChars? with
  | [some a, some b] => some (a, b)
  | _ => none

/-- Model of `pd.read_csv(filepath, comment=quoteChar, sep=whitespace,
names=[x_coordinate, value])` on the file format's domain: a line whose
uncommented part is blank contributes nothing (comment lines, blank lines),
a line with exactly two numeric fields contributes one row, and any other
line is out of the modelled domain and reported as an error. -/
def read_csv : List String → Except String (List (ℚ × ℚ))
  | [] => .ok []
  | line :: rest =>
    match read_csv rest with
    | .error e => .error e
    | .ok rows =>
      if (fieldsOf line).isEmpty then .ok rows
      else
        match parseRow? line with
        | some r => .ok (r :: rows)
        | none => .error "unmodelled row shape"

/-- Whitespace-separated fields of the whole line, comment character not
treated specially; used only to state the body-parsing claim's literal
reading. -/
def parseRowFull? (line : String) : Option (ℚ × ℚ) :=
  match ((splitOnPred Char.isWhitespace line.data).filter fun f =>
      !f.isEmpty).map parseFloatChars? with
  | [some a, some b] => some (a, b)
  | _ => none

/-- The literal reading of the body-parsing claim, for comparison with
`read_csv`: ignore exactly the lines that begin with the comment character,
and require every remaining line to split on whitespace into exactly two
numeric fields. -/
def read_csv_claimed : List String → Except String (List (ℚ × ℚ))
  | [] => .ok []
  | line :: rest =>
    match read_csv_claimed rest with
    | .error e => .error e
    | .ok rows =>
      if line.data.head? = some quoteChar then .ok rows
      else
        match parseRowFull? line with
        | some r => .ok (r :: rows)
        | none => .error "line does not split into two numeric fields"

/-- One row of a level DataFrame after `_process_variable` has added the
`time` and `level` columns. -/
structure Record where
  time : ℚ
  x_coordinate : ℚ
  value : ℚ
  level : ℕ
deriving DecidableEq

/-- One row of the merged result: the `level` column is dropped and the
frame is indexed by `(time, x_coordinate)`. -/
structure Entry where
  time : ℚ
  x_coordinate : ℚ
  value : ℚ
deriving DecidableEq

/-- The pandas `ValueError` raised when a column of the wrong length is
assigned to a DataFrame. -/
def lengthMismatchMsg : String := "length of values does not match length of index"

/-- The per-file body of the loop in `_process_variable` (lines 81-97):
`rows_per_data_block = block_size - 2` (empty result when not positive),
`num_timesteps = len(df) // rows_per_data_block` (empty result when zero),
keep the first `num_timesteps * rows_per_data_block` rows, and assign the
time column `np.repeat(times[:num_timesteps], rows_per_data_block)` and the
constant `level` column; the assignment raises when the repeated time
column is not exactly as long as the kept frame. -/
def build_records (body : List (ℚ × ℚ)) (blockSize : ℕ) (times : List ℚ)
    (level : ℕ) : Except String (List Record) :=
  let rowsPerDataBlock : ℤ := (blockSize : ℤ) - 2
  if rowsPerDataBlock ≤ 0 then .ok []
  else
    let rpb := rowsPerDataBlock.toNat
    let numTimesteps := body.length / rpb
    if numTimesteps = 0 then .ok []
    else
      let numRowsToKeep := numTimesteps * rpb
      let dfComplete := body.take numRowsToKeep
      let timeColumn := ((times.take numTimesteps).map fun t => List.replicate rpb t).flatten
      if timeColumn.length = dfComplete.length then
        .ok ((dfComplete.zip timeColumn).map fun p =>
          { time := p.2, x_coordinate := p.1.1, value := p.1.2, level := level })
      else .error lengthMismatchMsg

/-- The comparison realised by `sort_values(by=[time, x_coordinate,
level])`: lexicographic less-or-equal on `(time, x_coordinate, level)`. -/
def RecordLE (r s : Record) : Prop :=
  r.time < s.time ∨ (r.time = s.time ∧
    (r.x_coordinate < s.x_coordinate ∨
      (r.x_coordinate = s.x_coordinate ∧ r.level ≤ s.level)))

instance : DecidableRel RecordLE := fun r s => by
  unfold RecordLE; infer_instance

/-- `sort_values(by=[time, x_coordinate, level])`: pandas sorts a
multi-column `by` with a stable lexicographic sort; the stable structural
sort is insertion sort. -/
def sort_values (rs : List Record) : List Record :=
  rs.insertionSort RecordLE

/-- Equality of the dedup key `(time, x_coordinate)` of two records. -/
def sameKey (r s : Record) : Bool :=
  decide (r.time = s.time) && decide (r.x_coordinate = s.x_coordinate)

/-- `drop_duplicates(subset=[time, x_coordinate], keep=last)`: a row is kept
iff no later row has the same key; kept rows stay in order. -/
def drop_duplicates : List Record → List Record
  | [] => []
  | r :: rest =>
    if rest.any (sameKey r) then drop_duplicates rest
    else r :: drop_duplicates rest

/-- Lines 100-105 of `_process_variable` applied to the concatenation of the
per-level frames: stable sort by `(time, x_coordinate, level)`, dedup
keeping the last occurrence of each `(time, x_coordinate)` key, then drop
the `level` column. -/
def mergeRecords (rs : List Record) : List Entry :=
  (drop_duplicates (sort_values rs)).map fun r =>
    { time := r.time, x_coordinate := r.x_coordinate, value := r.value }

/-- Re-tag a merged entry as a level-0 record, to feed a merged dataset
back into the merge. -/
def entryToRecord (e : Entry) : Record :=
  { time := e.time, x_coordinate := e.x_coordinate, value := e.value, level := 0 }

/-- Value stored in a merged frame at index `(t, x)`: the first row whose
index matches (after merge the match is unique when it exists). -/
def lookupEntry (ds : List Entry) (t x : ℚ) : Option ℚ :=
  (ds.find? fun e => decide (e.time = t) && decide (e.x_coordinate = x)).map
    fun e => e.value

/-- `get_variable`: `self.data.get(variable_name, pd.DataFrame())`, with the
store passed explicitly; the returned pair carries the result and the store
after the call (Python `dict.get` does not mutate). -/
def get_variable (data : List (String × List Entry)) (variable_name : String) :
    List Entry × List (String × List Entry) :=
  match data.lookup variable_name with
  | some df => (df, data)
  | none => ([], data)

/-! ## Helper lemmas -/

theorem headerScan_eq (lines : List String) :
    ∀ (i : ℕ) (acc : List ℕ), acc.length < 2 →
      headerScan lines i acc = acc ++ (markerIndicesFrom i lines).take (2 - acc.length) := by
  induction lines with
  | nil => intro i acc _; simp [headerScan, markerIndicesFrom]
  | cons line rest ih =>
    intro i acc hacc
    by_cases hc : containsTime line
    · simp only [headerScan, hc, if_true, markerIndicesFrom]
      by_cases h2 : (acc ++ [i]).length = 2
      · have h1 : acc.length = 1 := by simpa using h2
        simp [h2, h1]
      · have h0 : acc.length = 0 := by simp at h2; omega
        have hnil : acc = [] := List.eq_nil_of_length_eq_zero h0
        subst hnil
        simp only [List.length_append, List.length_nil, List.length_singleton] at h2 ⊢
        simp only [if_neg h2, List.nil_append]
        rw [ih (i + 1) [i] (by simp)]
        simp
    · simp only [headerScan, hc, if_false, markerIndicesFrom]
      exact ih (i + 1) acc hacc

theorem markerIndicesFrom_eq (lines : List String) :
    ∀ i, markerIndicesFrom i lines =
      ((lines.enumFrom i).filter fun p => containsTime p.2).map Prod.fst := by
  induction lines with
  | nil => intro i; simp [markerIndicesFrom]
  | cons line rest ih =>
    intro i
    by_cases hc : containsTime line <;>
      simp [markerIndicesFrom, List.enumFrom, hc, ih (i + 1), List.filter_cons]

theorem parseTimesAux_eq (blockSize : ℕ) (lines : List String) :
    ∀ i, parseTimesAux blockSize i lines =
      (((lines.enumFrom i).filter fun p => p.1 % blockSize = 0).map Prod.snd).filterMap
        parseHeaderTime? := by
  induction lines with
  | nil => intro i; simp [parseTimesAux]
  | cons line rest ih =>
    intro i
    by_cases hi : i % blockSize = 0
    · simp only [parseTimesAux, hi, if_pos, List.enumFrom, List.filter_cons,
        decide_eq_true_eq, if_true]
      cases hp : parseHeaderTime? line <;>
        simp [hp, ih (i + 1), List.filterMap_cons]
    · simp [parseTimesAux, hi, List.enumFrom, List.filter_cons, ih (i + 1)]

theorem length_filterMap_eq (f : (ℕ × String) → Option ℚ) (l : List (ℕ × String)) :
    (l.filterMap f).length = (l.filter fun a => (f a).isSome).length := by
  induction l with
  | nil => simp
  | cons a l ih =>
    cases h : f a <;> simp [List.filterMap_cons, List.filter_cons, h, ih]

theorem RecordLE_total (a b : Record) : RecordLE a b ∨ RecordLE b a := by
  unfold RecordLE
  rcases lt_trichotomy a.time b.time with h | h | h
  · exact Or.inl (Or.inl h)
  · rcases lt_trichotomy a.x_coordinate b.x_coordinate with hx | hx | hx
    · exact Or.inl (Or.inr ⟨h, Or.inl hx⟩)
    · rcases Nat.le_total a.level b.level with hl | hl
      · exact Or.inl (Or.inr ⟨h, Or.inr ⟨hx, hl⟩⟩)
      · exact Or.inr (Or.inr ⟨h.symm, Or.inr ⟨hx.symm, hl⟩⟩)
    · exact Or.inr (Or.inr ⟨h.symm, Or.inl hx⟩)
  · exact Or.inr (Or.inl h)

theorem RecordLE_trans (a b c : Record) (hab : RecordLE a b) (hbc : RecordLE b c) :
    RecordLE a c := by
  unfold RecordLE at hab hbc ⊢
  rcases hab with h1 | ⟨e1, h1⟩
  · rcases hbc with h2 | ⟨e2, _⟩
    · exact Or.inl (h1.trans h2)
    · exact Or.inl (e2 ▸ h1)
  · rcases hbc with h2 | ⟨e2, h2⟩
    · exact Or.inl (e1 ▸ h2)
    · refine Or.inr ⟨e1.trans e2, ?_⟩
      rcases h1 with hx1 | ⟨ex1, hl1⟩
      · rcases h2 with hx2 | ⟨ex2, _⟩
        · exact Or.inl (hx1.trans hx2)
        · exact Or.inl (ex2 ▸ hx1)
      · rcases h2 with hx2 | ⟨ex2, hl2⟩
        · exact Or.inl (ex1 ▸ hx2)
        · exact Or.inr ⟨ex1.trans ex2, hl1.trans hl2⟩

instance : IsTotal Record RecordLE := ⟨RecordLE_total⟩

instance : IsTrans Record RecordLE := ⟨RecordLE_trans⟩

theorem sameKey_iff {r s : Record} :
    sameKey r s = true ↔ r.time = s.time ∧ r.x_coordinate = s.x_coordinate := by
  simp [sameKey]

theorem RecordLE_level {r f : Record} (h : RecordLE r f) (ht : r.time = f.time)
    (hx : r.x_coordinate = f.x_coordinate) : r.level ≤ f.level := by
  rcases h with h | ⟨_, h⟩
  · exact absurd h (by rw [ht]; exact lt_irrefl _)
  · rcases h with h | ⟨_, h⟩
    · exact absurd h (by rw [hx]; exact lt_irrefl _)
    · exact h

theorem drop_duplicates_sublist (l : List Record) : List.Sublist (drop_duplicates l) l := by
  induction l with
  | nil => simp [drop_duplicates]
  | cons r rest ih =>
    rw [drop_duplicates]
    by_cases h : rest.any (sameKey r) = true
    · simp only [h, if_true]
      exact ih.cons r
    · simp only [h, if_false]
      exact ih.cons₂ r

theorem mem_of_mem_drop_duplicates {l : List Record} {r : Record}
    (h : r ∈ drop_duplicates l) : r ∈ l :=
  (drop_duplicates_sublist l).subset h

theorem drop_duplicates_pairwise (l : List Record) :
    (drop_duplicates l).Pairwise fun a b => sameKey a b = false := by
  induction l with
  | nil => simp [drop_duplicates]
  | cons r rest ih =>
    rw [drop_duplicates]
    by_cases h : rest.any (sameKey r) = true
    · simpa [h] using ih
    · simp only [h, if_false]
      refine List.Pairwise.cons (fun s hs => ?_) ih
      have hs' : s ∈ rest := mem_of_mem_drop_duplicates hs
      simp only [List.any_eq_true, not_exists, not_and] at h
      simpa using h s hs'

theorem drop_duplicates_eq_self {l : List Record}
    (h : l.Pairwise fun a b => sameKey a b = false) : drop_duplicates l = l := by
  induction l with
  | nil => rfl
  | cons r rest ih =>
    rcases List.pairwise_cons.mp h with ⟨hr, hrest⟩
    rw [drop_duplicates]
    have hany : rest.any (sameKey r) = false := by
      simp only [List.any_eq_false]
      intro s hs
      simp [hr s hs]
    simp only [hany, if_false, Bool.false_eq_true]
    rw [ih hrest]

theorem drop_duplicates_survivor {l : List Record} (hl : l.Pairwise RecordLE) :
    ∀ r ∈ l, ∃ f ∈ drop_duplicates l, sameKey f r = true ∧ (r = f ∨ RecordLE r f) := by
  induction l with
  | nil => simp
  | cons a rest ih =>
    rcases List.pairwise_cons.mp hl with ⟨ha, hrest⟩
    intro r hr
    rw [drop_duplicates]
    by_cases hany : rest.any (sameKey a) = true
    · simp only [hany, if_true]
      rcases List.mem_cons.mp hr with rfl | hr'
      · rcases List.any_eq_true.mp hany with ⟨s, hs, hks⟩
        rcases ih hrest s hs with ⟨f, hf, hkf, _⟩
        refine ⟨f, hf, ?_, Or.inr (ha f (mem_of_mem_drop_duplicates hf))⟩
        rcases sameKey_iff.mp hkf with ⟨h1, h2⟩
        rcases sameKey_iff.mp hks with ⟨h3, h4⟩
        exact sameKey_iff.mpr ⟨h1.trans h3.symm, h2.trans h4.symm⟩
      · exact ih hrest r hr'
    · simp only [hany, if_false]
      rcases List.mem_cons.mp hr with rfl | hr'
      · exact ⟨r, List.mem_cons_self _ _, sameKey_iff.mpr ⟨rfl, rfl⟩, Or.inl rfl⟩
      · rcases ih hrest r hr' with ⟨f, hf, hkf, hor⟩
        exact ⟨f, List.mem_cons_of_mem _ hf, hkf, hor⟩

theorem sort_values_pairwise (rs : List Record) : (sort_values rs).Pairwise RecordLE :=
  List.sorted_insertionSort RecordLE rs

theorem mem_sort_values {rs : List Record} {r : Record} : r ∈ sort_values rs ↔ r ∈ rs :=
  List.mem_insertionSort _

theorem mergeRecords_keys_pairwise (rs : List Record) :
    (mergeRecords rs).Pairwise fun a b =>
      ¬ (a.time = b.time ∧ a.x_coordinate = b.x_coordinate) := by
  unfold mergeRecords
  rw [List.pairwise_map]
  refine (drop_duplicates_pairwise (sort_values rs)).imp ?_
  intro a b h hk
  rw [sameKey_iff.mpr hk] at h
  exact Bool.true_eq_false.mp h

theorem mergeRecords_value_at_max_level (rs : List Record) (b : Record)
    (hb : b ∈ rs)
    (hmax : ∀ s ∈ rs, s.time = b.time → s.x_coordinate = b.x_coordinate →
      s.level < b.level ∨ s = b) :
    lookupEntry (mergeRecords rs) b.time b.x_coordinate = some b.value := by
  have hsorted := sort_values_pairwise rs
  have hbmem : b ∈ sort_values rs := mem_sort_values.mpr hb
  obtain ⟨f, hf, hkf, hor⟩ := drop_duplicates_survivor hsorted b hbmem
  have hfb : f = b := by
    rcases hor with rfl | hle
    · rfl
    · have hfr : f ∈ rs := mem_sort_values.mp (mem_of_mem_drop_duplicates hf)
      rcases sameKey_iff.mp hkf with ⟨hft, hfx⟩
      rcases hmax f hfr hft hfx with hlt | rfl
      · have : b.level ≤ f.level := RecordLE_level hle hft.symm hfx.symm
        omega
      · rfl
  subst hfb
  have hentry : (⟨f.time, f.x_coordinate, f.value⟩ : Entry) ∈ mergeRecords rs := by
    unfold mergeRecords
    exact List.mem_map_of_mem _ hf
  have hpw := mergeRecords_keys_pairwise rs
  unfold lookupEntry
  cases hfind : (mergeRecords rs).find? fun e =>
      decide (e.time = f.time) && decide (e.x_coordinate = f.x_coordinate) with
  | none =>
    exfalso
    have := List.find?_eq_none.mp hfind _ hentry
    simp at this
  | some e =>
    have hpe := List.find?_some hfind
    have hme := List.mem_of_find?_eq_some hfind
    simp only [Bool.and_eq_true, decide_eq_true_eq] at hpe
    have heq : e = ⟨f.time, f.x_coordinate, f.value⟩ := by
      by_contra hne
      have hsymm : Symmetric fun a b : Entry =>
          ¬ (a.time = b.time ∧ a.x_coordinate = b.x_coordinate) :=
        fun a b h hk => h ⟨hk.1.symm, hk.2.symm⟩
      exact hpw.forall hsymm hme hentry hne ⟨hpe.1, hpe.2⟩
    rw [heq]
    rfl

theorem flatten_replicate_length (ts : List ℚ) (k : ℕ) :
    ((ts.map fun t => List.replicate k t).flatten).length = ts.length * k := by
  induction ts with
  | nil => simp
  | cons t ts ih => simp [ih, Nat.succ_mul, Nat.add_comm]

theorem fieldsOf_eq_nil_of_quote {line : String} (h : line.data.head? = some quoteChar) :
    fieldsOf line = [] := by
  unfold fieldsOf stripComment
  cases hd : line.data with
  | nil => rw [hd] at h; simp at h
  | cons c cs =>
    rw [hd] at h
    have hc : c = quoteChar := by simpa using h
    subst hc
    simp [splitOnChar, splitOnPred]

theorem fieldsOf_ne_nil_of_parseRow {l : String} {row : ℚ × ℚ}
    (h : parseRow? l = some row) : (fieldsOf l).isEmpty = false := by
  unfold parseRow? at h
  cases hf : fieldsOf l with
  | nil => rw [hf] at h; simp at h
  | cons a t => simp

theorem lookup_eq_none_of_not_mem (data : List (String × List Entry)) (name : String)
    (h : ∀ p ∈ data, p.1 ≠ name) : data.lookup name = none := by
  induction data with
  | nil => rfl
  | cons p rest ih =>
    obtain ⟨k, v⟩ := p
    have hne : (name == k) = false :=
      beq_eq_false_iff_ne.mpr fun e => h (k, v) (List.mem_cons_self _ _) e.symm
    rw [List.lookup, hne]
    exact ih fun q hq => h q (List.mem_cons_of_mem _ hq)

/-! ## Claims -/

/-- Claim C4: for every file, `_get_lines_per_block` returns the difference
between the indices of the first two lines containing the header marker
token `timeMarker`; if fewer than two such lines exist anywhere in the file
it returns `0` instead of failing. -/
theorem block_size_detection (lines : List String) :
    getLinesPerBlock lines =
      match (lines.enum.filter fun p => containsTime p.2).map Prod.fst with
      | i :: j :: _ => j - i
      | _ => 0 := by
  have h := headerScan_eq lines 0 [] (by simp)
  simp only [List.nil_append, Nat.sub_zero] at h
  have henum : lines.enum = lines.enumFrom 0 := rfl
  rw [getLinesPerBlock, h, markerIndicesFrom_eq lines 0, ← henum]
  cases hl : (lines.enum.filter fun p => containsTime p.2).map Prod.fst with
  | nil => simp
  | cons a t =>
    cases t with
    | nil => simp
    | cons b t' => simp

/-- Claim C5: `_parse_times_from_file` returns the empty sequence for block
size `0`; for a nonzero block size it visits exactly the lines whose index
is a multiple of the block size, in file order, and parses each with
`parseHeaderTime?` (split on the `=` marker, take the part at index 1,
strip whitespace and quote characters, convert to float); a header that
fails to parse is skipped, contributing nothing and affecting no other
entry. -/
theorem time_extraction (lines : List String) (blockSize : ℕ) (h : blockSize ≠ 0) :
    parseTimesFromFile lines 0 = [] ∧
    parseTimesFromFile lines blockSize =
      ((lines.enum.filter fun p => p.1 % blockSize = 0).map Prod.snd).filterMap
        parseHeaderTime? := by
  constructor
  · simp [parseTimesFromFile]
  · rw [parseTimesFromFile, if_neg h]
    exact parseTimesAux_eq blockSize lines 0

/-- Witness for C5 at a concrete two-block file with block size 3. -/
theorem time_extraction_witness :
    (3 : ℕ) ≠ 0 ∧
    (parseTimesFromFile ["\"Time = 0\"", "1 2", "3 4", "\"Time = 1\"", "5 6", "7 8"] 3 =
      (((["\"Time = 0\"", "1 2", "3 4", "\"Time = 1\"", "5 6", "7 8"] :
          List String).enum.filter fun p => p.1 % 3 = 0).map Prod.snd).filterMap
        parseHeaderTime?) :=
  ⟨by decide,
    (time_extraction ["\"Time = 0\"", "1 2", "3 4", "\"Time = 1\"", "5 6", "7 8"] 3
      (by decide)).2⟩

/-- Claim C10: for every lines sequence and block size at least 1, the
number of extracted times equals the number of lines at indices
`0, blockSize, 2 * blockSize, ...` whose header parses successfully — the
header of a truncated trailing partial block included, so the times
sequence can hold one more entry than the file has complete blocks. -/
theorem times_length_counts_parsed_headers (lines : List String) (blockSize : ℕ)
    (h : 1 ≤ blockSize) :
    (parseTimesFromFile lines blockSize).length =
      ((lines.enum.filter fun p => p.1 % blockSize = 0).filter fun p =>
        (parseHeaderTime? p.2).isSome).length := by
  rw [parseTimesFromFile, if_neg (by omega)]
  have henum : lines.enum = lines.enumFrom 0 := rfl
  rw [parseTimesAux_eq blockSize lines 0, ← henum]
  rw [List.filterMap_map, length_filterMap_eq]
  simp [Function.comp]

/-- Witness for C10: a file with one complete block and a truncated trailing
block whose header still parses; the times sequence has
`lines.length / blockSize + 1 = 2` entries. -/
theorem times_length_counts_parsed_headers_witness :
    (1 : ℕ) ≤ 3 ∧
    ((parseTimesFromFile ["\"Time = 0\"", "1 2", "3 4", "\"Time = 1\""] 3).length =
      (((["\"Time = 0\"", "1 2", "3 4", "\"Time = 1\""] :
          List String).enum.filter fun p => p.1 % 3 = 0).filter fun p =>
        (parseHeaderTime? p.2).isSome).length) ∧
    (parseTimesFromFile ["\"Time = 0\"", "1 2", "3 4", "\"Time = 1\""] 3).length =
      (["\"Time = 0\"", "1 2", "3 4", "\"Time = 1\""] : List String).length / 3 + 1 :=
  ⟨by decide,
    times_length_counts_parsed_headers ["\"Time = 0\"", "1 2", "3 4", "\"Time = 1\""] 3
      (by decide),
    by decide⟩

/-- Claim C1, counterexample to the literal statement: three records with
equal key `(0, 0)` at levels `0 < 1 < 2` and values `10, 20, 30` all enter
the merge; for the pair of levels `a = 0 < b = 1` the claim requires the
merged value at the key to be the level-1 value `20`, but the code stores
`30` (the highest level present), so the claim fails for that pair. -/
theorem override_law_counterexample :
    lookupEntry (mergeRecords
      [{ time := 0, x_coordinate := 0, value := 10, level := 0 },
       { time := 0, x_coordinate := 0, value := 20, level := 1 },
       { time := 0, x_coordinate := 0, value := 30, level := 2 }]) 0 0 = some 30 ∧
    ¬ lookupEntry (mergeRecords
      [{ time := 0, x_coordinate := 0, value := 10, level := 0 },
       { time := 0, x_coordinate := 0, value := 20, level := 1 },
       { time := 0, x_coordinate := 0, value := 30, level := 2 }]) 0 0 = some 20 := by
  decide

/-- Claim C1 (amended): for every pair of records with equal
`(time, position)` key and levels `a < b` that both enter the merge, if `b`
is the highest level present at that key and the level-`b` record is the
only record at that key which is not of strictly lower level, then the
merged dataset's value at the key is the level-`b` record's value. -/
theorem override_law_highest_level (rs : List Record) (a b : Record)
    (_ha : a ∈ rs) (hb : b ∈ rs)
    (_ht : a.time = b.time) (_hx : a.x_coordinate = b.x_coordinate)
    (_hab : a.level < b.level)
    (hmax : ∀ s ∈ rs, s.time = b.time → s.x_coordinate = b.x_coordinate →
      s.level < b.level ∨ s = b) :
    lookupEntry (mergeRecords rs) b.time b.x_coordinate = some b.value :=
  mergeRecords_value_at_max_level rs b hb hmax

/-- Witness for C1 at the spec's own scenario: level 0 has
`(time 0, position 1, value 5)`, level 1 has `(0, 1, 9)`; the merged value
at `(0, 1)` is `9`. -/
theorem override_law_highest_level_witness :
    lookupEntry (mergeRecords
      [{ time := 0, x_coordinate := 1, value := 5, level := 0 },
       { time := 0, x_coordinate := 1, value := 9, level := 1 }]) 0 1 = some 9 :=
  override_law_highest_level
    [{ time := 0, x_coordinate := 1, value := 5, level := 0 },
     { time := 0, x_coordinate := 1, value := 9, level := 1 }]
    { time := 0, x_coordinate := 1, value := 5, level := 0 }
    { time := 0, x_coordinate := 1, value := 9, level := 1 }
    (by decide) (by decide) (by decide) (by decide) (by decide) (by decide)

/-- Claim C2: for every collection of input records, the merged dataset
contains no two entries sharing the same `(time, position)` key. -/
theorem merged_keys_unique (rs : List Record) :
    (mergeRecords rs).Pairwise fun a b =>
      ¬ (a.time = b.time ∧ a.x_coordinate = b.x_coordinate) :=
  mergeRecords_keys_pairwise rs

/-- Claim C3: the code does not truncate to the shorter of the reference
times and the complete blocks.  A file of 2 complete blocks (block size 4,
so 2 rows per block) against a reference times sequence of length 1 makes
`np.repeat(times[:2], 2)` two entries long while the kept frame has four
rows, and the column assignment raises the pandas length-mismatch
`ValueError` instead of continuing with `min` blocks. -/
theorem sequence_mismatch_raises :
    build_records [(0, 1), (1, 2), (2, 3), (3, 4)] 4 [(0 : ℚ)] 0 =
      .error lengthMismatchMsg := by
  decide

/-- Claim C6 (amended): `rows_per_block = block_size - 2`, and a block size
of at most 2 yields an empty record sequence; for `block_size ≥ 3`, a body
of `rows_per_block * n + r` rows with `r < rows_per_block`, provided the
reference times sequence has at least `n` entries, yields exactly `n`
complete timesteps — `n * rows_per_block` records whose positions and
values are the first `n * rows_per_block` body rows in order (the trailing
`r` rows dropped), whose times are the first `n` reference times repeated
blockwise, and which all carry the given level. -/
theorem truncation_law_guarded (body : List (ℚ × ℚ)) (blockSize : ℕ) (times : List ℚ)
    (level : ℕ) (n r : ℕ) :
    (blockSize ≤ 2 → build_records body blockSize times level = .ok []) ∧
    (3 ≤ blockSize → body.length = n * (blockSize - 2) + r → r < blockSize - 2 →
      n ≤ times.length →
      ∃ recs, build_records body blockSize times level = .ok recs ∧
        recs.length = n * (blockSize - 2) ∧
        recs.map (fun rec => (rec.x_coordinate, rec.value)) =
          body.take (n * (blockSize - 2)) ∧
        recs.map Record.time =
          ((times.take n).map fun t => List.replicate (blockSize - 2) t).flatten ∧
        ∀ rec ∈ recs, rec.level = level) := by
  constructor
  · intro h2
    unfold build_records
    rw [if_pos (by omega)]
  · intro h3 hlen hr htimes
    have hpos : ¬ ((blockSize : ℤ) - 2 ≤ 0) := by omega
    have hrpb : ((blockSize : ℤ) - 2).toNat = blockSize - 2 := by omega
    have hkpos : 0 < blockSize - 2 := by omega
    unfold build_records
    rw [if_neg hpos]
    simp only [hrpb]
    have hdiv : body.length / (blockSize - 2) = n := by
      rw [hlen, Nat.mul_comm, Nat.add_comm, Nat.add_mul_div_left _ _ hkpos,
        Nat.div_eq_of_lt hr, Nat.zero_add]
    rw [hdiv]
    by_cases hn : n = 0
    · subst hn
      rw [if_pos rfl]
      exact ⟨[], rfl, by simp, by simp, by simp, by simp⟩
    · rw [if_neg hn]
      have htake : (times.take n).length = n := by
        rw [List.length_take]
        omega
      have htc : (((times.take n).map fun t =>
          List.replicate (blockSize - 2) t).flatten).length = n * (blockSize - 2) := by
        rw [flatten_replicate_length, htake]
      have hkeep : (body.take (n * (blockSize - 2))).length = n * (blockSize - 2) := by
        rw [List.length_take]
        omega
      rw [if_pos (by rw [htc, hkeep])]
      refine ⟨_, rfl, ?_, ?_, ?_, ?_⟩
      · rw [List.length_map, List.length_zip, htc, hkeep]
        omega
      · rw [List.map_map]
        have hfun : ((fun rec => (rec.x_coordinate, rec.value)) ∘ fun p : (ℚ × ℚ) × ℚ =>
            ({ time := p.2, x_coordinate := p.1.1, value := p.1.2, level := level } :
              Record)) = Prod.fst := funext fun p => rfl
        rw [hfun]
        exact List.map_fst_zip _ _ (le_of_eq (by rw [htc, hkeep]))
      · rw [List.map_map]
        have hfun : (Record.time ∘ fun p : (ℚ × ℚ) × ℚ =>
            ({ time := p.2, x_coordinate := p.1.1, value := p.1.2, level := level } :
              Record)) = Prod.snd := funext fun p => rfl
        rw [hfun]
        exact List.map_snd_zip _ _ (le_of_eq (by rw [hkeep, htc]))
      · intro rec hrec
        rcases List.mem_map.mp hrec with ⟨p, _, hp⟩
        rw [← hp]

/-- Witness for C6: block size 2 yields no records; block size 4 with a
3-row body (`n = 1`, `r = 1`) and two reference times yields one complete
timestep of two records. -/
theorem truncation_law_guarded_witness :
    (build_records [((5 : ℚ), (6 : ℚ))] 2 [(0 : ℚ)] 0 = .ok []) ∧
    ∃ recs, build_records [(0, 1), (1, 2), (2, 3)] 4 [(0 : ℚ), 1] 7 = .ok recs ∧
      recs.length = 1 * (4 - 2) ∧
      recs.map (fun rec => (rec.x_coordinate, rec.value)) =
        [((0 : ℚ), (1 : ℚ)), (1, 2), (2, 3)].take (1 * (4 - 2)) ∧
      recs.map Record.time =
        (([(0 : ℚ), 1].take 1).map fun t => List.replicate (4 - 2) t).flatten ∧
      ∀ rec ∈ recs, rec.level = 7 :=
  ⟨(truncation_law_guarded [((5 : ℚ), (6 : ℚ))] 2 [(0 : ℚ)] 0 0 1).1 (by decide),
    (truncation_law_guarded [((0 : ℚ), (1 : ℚ)), (1, 2), (2, 3)] 4 [(0 : ℚ), 1] 7 1 1).2
      (by decide) (by decide) (by decide) (by decide)⟩

/-- Claim C6, counterexample to the unguarded statement: a body of 2 rows
with block size 3 (`rows_per_block = 1`, so `n = 2` complete blocks,
`r = 0`) against a single reference time does not emit 2 timesteps — the
pandas length-mismatch `ValueError` is raised instead, so no records at all
are produced. -/
theorem truncation_law_counterexample :
    ¬ ∃ recs, build_records [(0, 1), (1, 2)] 3 [(0 : ℚ)] 0 = .ok recs := by
  rintro ⟨recs, h⟩
  have he : build_records [(0, 1), (1, 2)] 3 [(0 : ℚ)] 0 = .error lengthMismatchMsg := by
    decide
  rw [he] at h
  exact Except.noConfusion h

/-- Claim C7, counterexample to the literal statement: a blank line does
not begin with the comment character, yet `read_csv` ignores it rather
than splitting it into two numeric fields; the literal reading
(`read_csv_claimed`) disagrees with the code on `["1 2", "", "3 4"]`. -/
theorem body_parsing_counterexample :
    read_csv ["1 2", "", "3 4"] = .ok [(1, 2), (3, 4)] ∧
    read_csv ["1 2", "", "3 4"] ≠ read_csv_claimed ["1 2", "", "3 4"] := by
  decide

/-- Claim C7 (amended): on bodies whose every line either has a blank
uncommented part or splits into exactly two numeric fields, record building
reads the body as `(position, value)` pairs in file order, ignoring exactly
the lines whose uncommented part is blank — all lines beginning with the
designated comment marker among them — and parsing every remaining line
into exactly two numeric fields. -/
theorem body_parsing_amended (lines : List String)
    (hdom : ∀ l ∈ lines, (fieldsOf l).isEmpty = true ∨ (parseRow? l).isSome = true) :
    read_csv lines =
      .ok ((lines.filter fun l => !(fieldsOf l).isEmpty).filterMap parseRow?) ∧
    ∀ l ∈ lines, l.data.head? = some quoteChar → (fieldsOf l).isEmpty = true := by
  constructor
  · induction lines with
    | nil => rfl
    | cons l ls ih =>
      have hl := hdom l (List.mem_cons_self _ _)
      have hih := ih fun x hx => hdom x (List.mem_cons_of_mem _ hx)
      rw [read_csv, hih]
      rcases hl with hempty | hsome
      · simp [hempty, List.filter_cons]
      · rcases Option.isSome_iff_exists.mp hsome with ⟨row, hrow⟩
        have hne := fieldsOf_ne_nil_of_parseRow hrow
        simp [hne, hrow, List.filter_cons, List.filterMap_cons]
  · intro l _ hq
    rw [fieldsOf_eq_nil_of_quote hq]
    rfl

/-- Witness for C7 on a body with a comment line, two data rows and a blank
line. -/
theorem body_parsing_amended_witness :
    (∀ l ∈ (["\"Time = 0.0", "1 2", "", "3 4"] : List String),
      (fieldsOf l).isEmpty = true ∨ (parseRow? l).isSome = true) ∧
    read_csv ["\"Time = 0.0", "1 2", "", "3 4"] =
      .ok (((["\"Time = 0.0", "1 2", "", "3 4"] : List String).filter fun l =>
        !(fieldsOf l).isEmpty).filterMap parseRow?) :=
  ⟨by decide, (body_parsing_amended ["\"Time = 0.0", "1 2", "", "3 4"] (by decide)).1⟩

/-- Claim C8: merging is deterministic — two runs on the same record sets
give identical merged datasets (in this pure model the first conjunct) —
and moreover idempotent as an operation: re-merging the merged output
(re-tagged as single-level records) reproduces the merged dataset
unchanged. -/
theorem merge_idempotent (rs : List Record) :
    mergeRecords rs = mergeRecords rs ∧
    mergeRecords ((mergeRecords rs).map entryToRecord) = mergeRecords rs := by
  refine ⟨rfl, ?_⟩
  have hpw_le : (drop_duplicates (sort_values rs)).Pairwise RecordLE :=
    (sort_values_pairwise rs).sublist (drop_duplicates_sublist _)
  have hpw_keys := drop_duplicates_pairwise (sort_values rs)
  have hpw_both := hpw_le.and hpw_keys
  have hmap : (mergeRecords rs).map entryToRecord =
      (drop_duplicates (sort_values rs)).map fun r =>
        entryToRecord ⟨r.time, r.x_coordinate, r.value⟩ := by
    unfold mergeRecords
    rw [List.map_map]
    rfl
  rw [hmap]
  have hpw' : ((drop_duplicates (sort_values rs)).map fun r =>
      entryToRecord ⟨r.time, r.x_coordinate, r.value⟩).Pairwise fun a b =>
      RecordLE a b ∧ sameKey a b = false := by
    rw [List.pairwise_map]
    refine hpw_both.imp ?_
    intro a b hab
    obtain ⟨hle, hkey⟩ := hab
    constructor
    · rcases hle with hlt | ⟨hte, hrest⟩
      · exact Or.inl hlt
      · rcases hrest with hxlt | ⟨hxe, _⟩
        · exact Or.inr ⟨hte, Or.inl hxlt⟩
        · exact absurd (sameKey_iff.mpr ⟨hte, hxe⟩) (by simp [hkey])
    · exact hkey
  have hsort : sort_values ((drop_duplicates (sort_values rs)).map fun r =>
      entryToRecord ⟨r.time, r.x_coordinate, r.value⟩) =
      (drop_duplicates (sort_values rs)).map fun r =>
        entryToRecord ⟨r.time, r.x_coordinate, r.value⟩ :=
    List.Sorted.insertionSort_eq (hpw'.imp fun h => h.1)
  have hdd := drop_duplicates_eq_self (hpw'.imp fun h => h.2)
  unfold mergeRecords
  rw [hsort, hdd, List.map_map]
  rfl

/-- Claim C9: looking up a variable name not present in the store returns
an empty frame rather than raising, and leaves the store unchanged. -/
theorem unknown_variable_lookup (data : List (String × List Entry)) (name : String)
    (h : ∀ p ∈ data, p.1 ≠ name) :
    get_variable data name = ([], data) := by
  unfold get_variable
  rw [lookup_eq_none_of_not_mem data name h]

/-- Witness for C9: a store holding one variable, queried with an unknown
name. -/
theorem unknown_variable_lookup_witness :
    (∀ p ∈ [("rho", [({ time := 0, x_coordinate := 0, value := 1 } : Entry)])],
      p.1 ≠ "psi") ∧
    get_variable [("rho", [({ time := 0, x_coordinate := 0, value := 1 } : Entry)])]
      "psi" = ([], [("rho", [{ time := 0, x_coordinate := 0, value := 1 }])]) :=
  ⟨by decide,
    unknown_variable_lookup [("rho", [{ time := 0, x_coordinate := 0, value := 1 }])]
      "psi" (by decide)⟩

end NRData
